import Mathlib

/-!
Verification of the workflow execution engine of the LangChain automation
platform (`langchain-automation/app.py`, class `WorkflowExecutor`, together
with the execution-registry reads in `integration.py`).

The embedding is shallow: Python dataclasses become structures, dicts become
association lists, and the external capabilities the node handlers call out
to (Python `eval`, outbound HTTP, the LLM agent/chain, message formatting,
webhook posting) are collected in a `Caps` record of injected functions, so
that every handler is a pure Lean function of the node, the payload and the
capabilities.  A Python exception escaping a handler is an `Except.error`
carrying `str(e)`; exceptions the source catches locally are folded into the
return value exactly where the source catches them.
-/

namespace WorkflowEngine

/-- Model of a Python value as it flows through the engine: the payload,
node-configuration entries and HTTP results.  `vNull` is Python `None`. -/
inductive PValue where
  | vNull : PValue
  | vBool : Bool → PValue
  | vInt : Int → PValue
  | vStr : String → PValue
  | vList : List PValue → PValue
  | vObj : List (String × PValue) → PValue

/-- Python truthiness (`bool(x)`) on the modelled values: `None`, `False`,
`0`, the empty string, the empty list and the empty dict are falsy. -/
def pyTruthy : PValue → Bool
  | .vNull => false
  | .vBool b => b
  | .vInt n => n != 0
  | .vStr s => !(s == "")
  | .vList l => !l.isEmpty
  | .vObj l => !l.isEmpty

/-- Python `==` between a modelled value and a string literal: true exactly
for the equal string. -/
def pvEqStr (v : PValue) (s : String) : Bool :=
  match v with
  | .vStr t => t == s
  | _ => false

/-- Whether a modelled value is a dict that has the given key. -/
def pvHasKey (v : PValue) (k : String) : Bool :=
  match v with
  | .vObj l => (l.find? (fun p => p.1 == k)).isSome
  | _ => false

/-- Node types, from the `NodeType` enum of the source. -/
inductive NodeType where
  | trigger
  | action
  | condition
  | ai_agent
  | transform
  | output
deriving DecidableEq

/-- Workflow statuses, from the `WorkflowStatus` enum of the source. -/
inductive WorkflowStatus where
  | draft
  | active
  | paused
  | error
  | completed
deriving DecidableEq

/-- A workflow node (`WorkflowNode` dataclass): id, type, display name,
configuration dict, layout position and the ordered outgoing edges. -/
structure WorkflowNode where
  id : String
  type : NodeType
  name : String
  config : List (String × PValue)
  position : List (String × Int)
  connections : List String

/-- A workflow (`Workflow` dataclass).  Timestamps are abstract `Nat`s. -/
structure Workflow where
  id : String
  name : String
  description : String
  nodes : List WorkflowNode
  status : WorkflowStatus
  created_at : Nat
  updated_at : Nat
  created_by : String
  team_id : String
  trigger_config : List (String × PValue)

/-- `config.get(k)`: the first entry for the key, if any. -/
def cfgGet (config : List (String × PValue)) (k : String) : Option PValue :=
  (config.find? (fun p => p.1 == k)).map (fun p => p.2)

/-- `config.get(k, d)`: lookup with a default. -/
def cfgGetD (config : List (String × PValue)) (k : String) (d : PValue) : PValue :=
  (cfgGet config k).getD d

/-- `next((n for n in nodes if n.id == node_id), None)`. -/
def findNode (nodes : List WorkflowNode) (nid : String) : Option WorkflowNode :=
  nodes.find? (fun n => n.id == nid)

/-- State of the recursive `traverse` closure inside
`_build_execution_path`: the visited set and the path built so far. -/
structure TravSt where
  visited : List String
  path : List String

/-- The recursive `traverse` closure of `_build_execution_path`: if the id
was visited, return; otherwise mark it visited, append it to the path, and
if a node with that id exists, recurse on each of its connections in order.
The Python recursion terminates because the visited set grows at every
non-trivial call; here that is made explicit with a fuel parameter, and
`buildExecutionPath` supplies fuel exceeding the maximal recursion depth
(one level per freshly visited id, each a connection occurrence, plus the
start id, plus one terminating level). -/
def traverse (nodes : List WorkflowNode) : Nat → TravSt → String → TravSt
  | 0, s, _ => s
  | fuel + 1, s, nid =>
    if nid ∈ s.visited then s
    else
      let s1 : TravSt := ⟨nid :: s.visited, s.path ++ [nid]⟩
      match findNode nodes nid with
      | none => s1
      | some n => n.connections.foldl (traverse nodes fuel) s1

/-- Total number of edge endpoints in the node list; bounds how many
distinct ids the traversal can ever visit beyond the start id. -/
def connCount (nodes : List WorkflowNode) : Nat :=
  (nodes.map (fun n => n.connections.length)).sum

/-- `_build_execution_path(nodes, start_node_id)`: depth-first pre-order
walk from the start id. -/
def buildExecutionPath (nodes : List WorkflowNode) (start : String) : List String :=
  (traverse nodes (connCount nodes + 2) ⟨[], []⟩ start).path

/-- The external capabilities the node handlers call out to, injected as
pure functions.  `evalScript` models Python `eval(script, {'data': data,
'json': json})` applied to the raw config value (a non-string script or a
statement such as `return data` makes CPython raise; the capability reports
that as `Except.error` with `str(e)`).  `http` models the `aiohttp` request
(method, url, headers, body) returning the decoded JSON and the status
code, or a transport error.  `runAgent` and `runChain` model
`agent.run`/`chain.run` on the configured prompt value and the current
payload, whose exceptions escape the handler.  `parseJson` models
`json.loads` on the returned text.  `formatOutput` models
`template.format(data=json.dumps(data, indent=2))`.  `sendMessage` models
`MattermostTool._send_message`, which catches every exception internally
and returns a status string.  `postWebhook` models `session.post` on the
webhook branch, whose exceptions escape the handler. -/
structure Caps where
  evalScript : PValue → PValue → Except String PValue
  http : PValue → PValue → PValue → PValue → Except String (PValue × Int)
  runAgent : PValue → PValue → Except String String
  runChain : PValue → PValue → Except String String
  parseJson : String → Option PValue
  formatOutput : PValue → PValue → Except String String
  sendMessage : String → String → String
  postWebhook : PValue → PValue → Except String Unit

/-- `_execute_ai_agent_node`: runs the agent on the configured prompt and
wraps the answer; an agent failure escapes (it is not caught locally). -/
def executeAiAgentNode (caps : Caps) (node : WorkflowNode) (data : PValue) :
    Except String PValue := do
  let prompt := cfgGetD node.config "prompt" (.vStr "Process this data: {input}")
  let r ← caps.runAgent prompt data
  return .vObj [("ai_result", .vStr r), ("original_data", data)]

/-- `_execute_action_node`: `http_request` issues the HTTP call and folds a
transport failure into an `error` payload; `data_transform` evaluates the
configured script (default `return data`) and folds an evaluation failure
into an `error` payload; any other (or missing) `action_type` passes the
payload through unchanged.  The handler itself never raises. -/
def executeActionNode (caps : Caps) (node : WorkflowNode) (data : PValue) : PValue :=
  match cfgGet node.config "action_type" with
  | some (.vStr "http_request") =>
    let url := cfgGetD node.config "url" .vNull
    let method := cfgGetD node.config "method" (.vStr "GET")
    let headers := cfgGetD node.config "headers" (.vObj [])
    match caps.http method url headers data with
    | .ok (r, code) => .vObj [("http_result", r), ("status_code", .vInt code)]
    | .error e => .vObj [("error", .vStr e)]
  | some (.vStr "data_transform") =>
    let script := cfgGetD node.config "transform_script" (.vStr "return data")
    match caps.evalScript script data with
    | .ok r => r
    | .error e => .vObj [("error", .vStr e)]
  | _ => data

/-- `_execute_condition_node`: evaluates the configured condition (default
`True`) and applies Python truthiness; an evaluation failure is logged and
the handler returns `false`. -/
def executeConditionNode (caps : Caps) (node : WorkflowNode) (data : PValue) : Bool :=
  let cond := cfgGetD node.config "condition" (.vStr "True")
  match caps.evalScript cond data with
  | .ok v => pyTruthy v
  | .error _ => false

/-- `_execute_transform_node`: runs the LLM chain on the configured prompt
(a chain failure escapes), then tries to parse the text as JSON, falling
back to a wrapper object on parse failure. -/
def executeTransformNode (caps : Caps) (node : WorkflowNode) (data : PValue) :
    Except String PValue := do
  let prompt := cfgGetD node.config "prompt" (.vStr "Transform this data: {input}")
  let r ← caps.runChain prompt data
  match caps.parseJson r with
  | some v => return v
  | none => return .vObj [("transformed_data", .vStr r), ("original_data", data)]

/-- Python truthiness of the optional channel id argument
(`None` and the empty string are falsy). -/
def channelTruthy : Option String → Bool
  | none => false
  | some s => !(s == "")

/-- `_execute_output_node`: on the mattermost branch (configured output
type `mattermost` and a truthy channel id) formats the message template
(a formatting failure escapes) and sends it through the tool (which never
raises); on the webhook branch posts the payload to a truthy webhook url
(a posting failure escapes); otherwise does nothing. -/
def executeOutputNode (caps : Caps) (node : WorkflowNode) (data : PValue)
    (channel : Option String) : Except String Unit :=
  let outputType := cfgGetD node.config "output_type" (.vStr "mattermost")
  if pvEqStr outputType "mattermost" && channelTruthy channel then
    let template := cfgGetD node.config "message_template" (.vStr "Workflow completed: {data}")
    do
      let m ← caps.formatOutput template data
      let _ := caps.sendMessage (channel.getD "") m
      return ()
  else if pvEqStr outputType "webhook" then
    match cfgGet node.config "webhook_url" with
    | some u => if pyTruthy u then caps.postWebhook u data else .ok ()
    | none => .ok ()
  else .ok ()

/-- One iteration of the dispatch `if/elif` chain in `execute_workflow`,
as a function of the node and the current payload: the next payload and
whether the loop continues (`false` exactly when a condition node says to
`break`).  A trigger node matches no branch and is a no-op. -/
def nodeStep (caps : Caps) (channel : Option String) (node : WorkflowNode)
    (data : PValue) : Except String (PValue × Bool) :=
  match node.type with
  | .trigger => .ok (data, true)
  | .ai_agent => do
    let d ← executeAiAgentNode caps node data
    return (d, true)
  | .action => .ok (executeActionNode caps node data, true)
  | .condition => .ok (data, executeConditionNode caps node data)
  | .transform => do
    let d ← executeTransformNode caps node data
    return (d, true)
  | .output => do
    executeOutputNode caps node data channel
    return (data, true)

/-- Ghost state of the execution loop: the threaded payload and, for
observation only, the ids of the nodes whose dispatch branch ran. -/
structure LoopState where
  data : PValue
  log : List String

/-- Result of the execution loop: the final loop state, or the escaping
exception message together with the ghost state at the failure point. -/
inductive RunResult where
  | ok : LoopState → RunResult
  | err : String → LoopState → RunResult

/-- The `for node_id in execution_path` loop of `execute_workflow`: a path
id with no matching node is skipped silently; otherwise the node is
dispatched on the threaded payload, the loop breaks when a condition node
returns false, and a dispatch exception aborts the loop and escapes. -/
def runPath (caps : Caps) (nodes : List WorkflowNode) (channel : Option String) :
    List String → LoopState → RunResult
  | [], s => .ok s
  | nid :: rest, s =>
    match findNode nodes nid with
    | none => runPath caps nodes channel rest s
    | some node =>
      match nodeStep caps channel node s.data with
      | .error e => .err e ⟨s.data, s.log ++ [nid]⟩
      | .ok (d, cont) =>
        if cont then runPath caps nodes channel rest ⟨d, s.log ++ [nid]⟩
        else .ok ⟨d, s.log ++ [nid]⟩

/-- The per-run record stored in `active_executions`.  The dict keys
`completed_at` and `error` are absent until set, hence options; the status
values are the strings the source stores. -/
structure ExecutionRecord where
  workflow_id : String
  status : String
  started_at : Nat
  channel_id : Option String
  completed_at : Option Nat
  error : Option String
deriving DecidableEq

/-- The record registered before the trigger check (`status: running`). -/
def runningRecord (w : Workflow) (channel : Option String) (now : Nat) :
    ExecutionRecord :=
  ⟨w.id, "running", now, channel, none, none⟩

/-- The observable outcome of `execute_workflow`: the returned execution id
or the re-raised exception message, the final state of this run's registry
record, and (ghost) the dispatch log and final payload of the loop. -/
structure ExecResult where
  result : Except String String
  record : ExecutionRecord
  log : List String
  finalData : PValue

/-- `execute_workflow(workflow, trigger_data, channel_id)`: register a
running record; find the first trigger node, raising if absent; build the
execution path from it and drive the loop; on success mark the record
completed with a completion timestamp and return the execution id; on any
exception mark the record with status `error` and the message, and
re-raise.  `now` and `now2` stand for the two `datetime.utcnow()` calls. -/
def executeWorkflow (caps : Caps) (w : Workflow) (triggerData : PValue)
    (channel : Option String) (executionId : String) (now now2 : Nat) : ExecResult :=
  let running := runningRecord w channel now
  match w.nodes.find? (fun n => n.type == NodeType.trigger) with
  | none =>
    { result := .error "No trigger node found in workflow"
      record := { running with
                  status := "error"
                  error := some "No trigger node found in workflow" }
      log := []
      finalData := triggerData }
  | some t =>
    let path := buildExecutionPath w.nodes t.id
    match runPath caps w.nodes channel path ⟨triggerData, []⟩ with
    | .ok s =>
      { result := .ok executionId
        record := { running with status := "completed", completed_at := some now2 }
        log := s.log
        finalData := s.data }
    | .err e s =>
      { result := .error e
        record := { running with status := "error", error := some e }
        log := s.log
        finalData := s.data }

/-- The process-wide `active_executions` dict, as an association list whose
most recent write for a key comes first. -/
def Registry := List (String × ExecutionRecord)

/-- Dict write `active_executions[eid] = rec`. -/
def regSet (r : Registry) (eid : String) (rec : ExecutionRecord) : Registry :=
  (eid, rec) :: r

/-- Dict read `active_executions.get(eid)`. -/
def regGet (r : Registry) (eid : String) : Option ExecutionRecord :=
  ((r : List (String × ExecutionRecord)).find? (fun p => p.1 == eid)).map (fun p => p.2)

/-- The execution-status read used by `_workflow_status` in
`integration.py` (and by the status endpoints): a pure lookup. -/
def getExecutionStatus (r : Registry) (eid : String) : Option ExecutionRecord :=
  regGet r eid

/-- The operations that touch the registry: a full `execute_workflow` run
registering under its freshly generated execution id, and a status query,
which only reads. -/
inductive RegOp where
  | exec (caps : Caps) (w : Workflow) (triggerData : PValue)
      (channel : Option String) (executionId : String) (now now2 : Nat)
  | statusQuery (eid : String)

/-- The execution id an operation writes under, if it writes at all. -/
def execId : RegOp → Option String
  | .exec _ _ _ _ eid _ _ => some eid
  | .statusQuery _ => none

/-- Effect of one operation on the registry: an execution first registers
its running record, then overwrites it with the final record (both under
its own execution id); a status query leaves the registry unchanged. -/
def regStep (r : Registry) : RegOp → Registry
  | .exec caps w d ch eid n1 n2 =>
    regSet (regSet r eid (runningRecord w ch n1)) eid
      (executeWorkflow caps w d ch eid n1 n2).record
  | .statusQuery _ => r

/-- Fixture constructor: a node whose display name is its id and whose
layout position is empty (the position is presentation-only). -/
def mkNode (nid : String) (t : NodeType) (config : List (String × PValue))
    (conns : List String) : WorkflowNode :=
  ⟨nid, t, nid, config, [], conns⟩

/-- Fixture constructor: a workflow around a node list. -/
def mkWorkflow (wid : String) (nodes : List WorkflowNode) : Workflow :=
  ⟨wid, wid, "", nodes, .active, 0, 0, "user", "team", []⟩

/-- Baseline capabilities for fixtures: every external call fails, message
sending reports a transport failure string, JSON never parses. -/
def noCaps : Caps :=
  { evalScript := fun _ _ => .error "eval failed"
    http := fun _ _ _ _ => .error "http failed"
    runAgent := fun _ _ => .error "agent failed"
    runChain := fun _ _ => .error "chain failed"
    parseJson := fun _ => none
    formatOutput := fun _ _ => .error "format failed"
    sendMessage := fun _ _ => "Error sending message: connection refused"
    postWebhook := fun _ _ => .error "webhook failed" }

/-- Fixture for the dangling-edge claims: a single node `A` whose only
successor id `B` has no node. -/
def danglingNodes : List WorkflowNode :=
  [mkNode "A" .trigger [] ["B"]]

/-- Fixture for the cycle claim: `A → B → A`. -/
def cycNodes : List WorkflowNode :=
  [mkNode "A" .trigger [] ["B"], mkNode "B" .action [] ["A"]]

/-- Fixture for the pre-order claim: `X → [B, N]`, `N → [S1, B]`; the second
successor `B` of `N` is already visited when `N` is explored. -/
def preorderNodes : List WorkflowNode :=
  [mkNode "X" .trigger [] ["B", "N"],
   mkNode "B" .action [] [],
   mkNode "N" .action [] ["S1", "B"],
   mkNode "S1" .action [] []]

/-- Fixture workflow Trigger → Condition → Output. -/
def condWorkflow : Workflow :=
  mkWorkflow "w2"
    [mkNode "t" .trigger [] ["c"],
     mkNode "c" .condition [("condition", .vStr "False")] ["o"],
     mkNode "o" .output [("output_type", .vStr "mattermost")] []]

/-- Fixture workflow Trigger → Action(http_request) → Output. -/
def httpWorkflow : Workflow :=
  mkWorkflow "w6"
    [mkNode "t" .trigger [] ["a"],
     mkNode "a" .action [("action_type", .vStr "http_request"),
                         ("url", .vStr "http://example.com")] ["o"],
     mkNode "o" .output [("output_type", .vStr "mattermost")] []]

/-- Fixture workflow whose trigger has two successor actions, both
`data_transform` nodes; used to observe sibling payload threading. -/
def siblingWorkflow : Workflow :=
  mkWorkflow "w7"
    [mkNode "t" .trigger [] ["a1", "a2"],
     mkNode "a1" .action [("action_type", .vStr "data_transform"),
                          ("transform_script", .vStr "s1")] [],
     mkNode "a2" .action [("action_type", .vStr "data_transform"),
                          ("transform_script", .vStr "s2")] []]

/-- Capabilities for the sibling fixture: script `s1` replaces the payload
by the string `mutated`; script `s2` wraps whatever payload it receives. -/
def siblingCaps : Caps :=
  { noCaps with
    evalScript := fun s d =>
      match s with
      | .vStr "s1" => .ok (.vStr "mutated")
      | .vStr "s2" => .ok (.vObj [("saw", d)])
      | _ => .error "eval failed" }

/-- Capabilities whose HTTP call fails with a transport error. -/
def httpFailCaps : Caps :=
  { noCaps with http := fun _ _ _ _ => .error "connection refused" }

/-- Fixture workflow with no trigger node. -/
def noTriggerWorkflow : Workflow :=
  mkWorkflow "w3" [mkNode "a" .action [] []]

/-- Fixture node of subtype `data_transform` with no `transform_script`
key in its configuration. -/
def defaultScriptNode : WorkflowNode :=
  mkNode "a9" .action [("action_type", .vStr "data_transform")] []

/-- Capabilities modelling CPython `eval` far enough for the default
transform script: `return data` is a statement, not an expression, so
evaluating it raises a `SyntaxError`. -/
def statementRejectingCaps : Caps :=
  { noCaps with
    evalScript := fun s _ =>
      match s with
      | .vStr t =>
        if t == "return data" then .error "invalid syntax (<string>, line 1)"
        else .error "eval failed"
      | _ => .error "eval() arg 1 must be a string, bytes or code object" }

/-- A terminal (completed) registry record fixture. -/
def doneRecord : ExecutionRecord :=
  ⟨"w1", "completed", 0, none, some 1, none⟩

/-- All successor-id occurrences of the node list, concatenated. -/
def allConns (nodes : List WorkflowNode) : List String :=
  (nodes.map (fun n => n.connections)).flatten

/-- Invariant of the traversal state: the path has no duplicates and every
id on the path is in the visited set. -/
def GoodSt (s : TravSt) : Prop :=
  s.path.Nodup ∧ ∀ x ∈ s.path, x ∈ s.visited

/-- An id that occurs as a successor of some node in the list. -/
def fromConns (nodes : List WorkflowNode) (x : String) : Prop :=
  ∃ n, n ∈ nodes ∧ x ∈ n.connections

/-- Helper lemma: folding the traversal over a successor list only ever
appends to the path, provided one traversal step only appends. -/
theorem foldl_path_extend (nodes : List WorkflowNode) (fuel : Nat)
    (h : ∀ s nid, ∃ t, (traverse nodes fuel s nid).path = s.path ++ t) :
    ∀ (l : List String) (s : TravSt),
      ∃ t, (l.foldl (traverse nodes fuel) s).path = s.path ++ t := by
  intro l
  induction l with
  | nil => intro s; exact ⟨[], by simp⟩
  | cons c cs ih =>
    intro s
    obtain ⟨t1, h1⟩ := h s c
    obtain ⟨t2, h2⟩ := ih (traverse nodes fuel s c)
    refine ⟨t1 ++ t2, ?_⟩
    simp [List.foldl_cons, h2, h1]

/-- Helper lemma: one traversal step only ever appends to the path. -/
theorem traverse_path_extend (nodes : List WorkflowNode) :
    ∀ (fuel : Nat) (s : TravSt) (nid : String),
      ∃ t, (traverse nodes fuel s nid).path = s.path ++ t := by
  intro fuel
  induction fuel with
  | zero => intro s nid; exact ⟨[], by simp [traverse]⟩
  | succ f ih =>
    intro s nid
    by_cases hv : nid ∈ s.visited
    · exact ⟨[], by simp [traverse, hv]⟩
    · cases hf : findNode nodes nid with
      | none => exact ⟨[nid], by simp [traverse, hv, hf]⟩
      | some n =>
        obtain ⟨t, ht⟩ :=
          foldl_path_extend nodes f ih n.connections ⟨nid :: s.visited, s.path ++ [nid]⟩
        refine ⟨nid :: t, ?_⟩
        simp only [traverse, if_neg hv, hf]
        rw [ht]
        simp

/-- Helper lemma: folding the traversal preserves the state invariant,
provided one traversal step preserves it. -/
theorem foldl_good (nodes : List WorkflowNode) (fuel : Nat)
    (h : ∀ s nid, GoodSt s → GoodSt (traverse nodes fuel s nid)) :
    ∀ (l : List String) (s : TravSt), GoodSt s → GoodSt (l.foldl (traverse nodes fuel) s) := by
  intro l
  induction l with
  | nil => intro s hs; simpa using hs
  | cons c cs ih =>
    intro s hs
    simpa [List.foldl_cons] using ih (traverse nodes fuel s c) (h s c hs)

/-- Helper lemma: one traversal step preserves the state invariant. -/
theorem traverse_good (nodes : List WorkflowNode) :
    ∀ (fuel : Nat) (s : TravSt) (nid : String), GoodSt s → GoodSt (traverse nodes fuel s nid) := by
  intro fuel
  induction fuel with
  | zero => intro s nid hs; simpa [traverse] using hs
  | succ f ih =>
    intro s nid hs
    by_cases hv : nid ∈ s.visited
    · simpa [traverse, hv] using hs
    · have hnp : nid ∉ s.path := fun hmem => hv (hs.2 nid hmem)
      have hgood1 : GoodSt ⟨nid :: s.visited, s.path ++ [nid]⟩ := by
        constructor
        · simp [List.nodup_append, hs.1, hnp]
        · intro x hx
          rcases List.mem_append.mp hx with h1 | h1
          · exact List.mem_cons_of_mem _ (hs.2 x h1)
          · simp only [List.mem_singleton] at h1
            simp [h1]
      cases hf : findNode nodes nid with
      | none => simpa [traverse, hv, hf] using hgood1
      | some n =>
        have := foldl_good nodes f ih n.connections _ hgood1
        simpa [traverse, hv, hf] using this

/-- Helper lemma: every id the fold adds to the path is either already on
the path or a successor of some node, provided one traversal step adds only
its own argument or successors. -/
theorem foldl_mem_src (nodes : List WorkflowNode) (fuel : Nat)
    (h : ∀ s nid x, x ∈ (traverse nodes fuel s nid).path →
      x ∈ s.path ∨ x = nid ∨ fromConns nodes x) :
    ∀ (l : List String) (s : TravSt) (x : String), (∀ c ∈ l, fromConns nodes c) →
      x ∈ (l.foldl (traverse nodes fuel) s).path → x ∈ s.path ∨ fromConns nodes x := by
  intro l
  induction l with
  | nil => intro s x _ hx; exact Or.inl (by simpa using hx)
  | cons c cs ih =>
    intro s x hc hx
    rcases ih (traverse nodes fuel s c) x
        (fun d hd => hc d (List.mem_cons_of_mem _ hd)) (by simpa using hx) with h1 | h1
    · rcases h s c x h1 with h2 | h2 | h2
      · exact Or.inl h2
      · exact Or.inr (h2 ▸ hc c (List.mem_cons_self _ _))
      · exact Or.inr h2
    · exact Or.inr h1

/-- Helper lemma: every id a traversal step adds to the path is the step's
own argument or a successor of some node in the list. -/
theorem traverse_mem_src (nodes : List WorkflowNode) :
    ∀ (fuel : Nat) (s : TravSt) (nid x : String),
      x ∈ (traverse nodes fuel s nid).path → x ∈ s.path ∨ x = nid ∨ fromConns nodes x := by
  intro fuel
  induction fuel with
  | zero => intro s nid x hx; exact Or.inl (by simpa [traverse] using hx)
  | succ f ih =>
    intro s nid x hx
    by_cases hv : nid ∈ s.visited
    · exact Or.inl (by simpa [traverse, hv] using hx)
    · cases hf : findNode nodes nid with
      | none =>
        have hx' : x ∈ s.path ++ [nid] := by simpa [traverse, hv, hf] using hx
        rcases List.mem_append.mp hx' with h1 | h1
        · exact Or.inl h1
        · exact Or.inr (Or.inl (by simpa using h1))
      | some n =>
        have hmem : ∀ c ∈ n.connections, fromConns nodes c := by
          intro c hc
          exact ⟨n, List.mem_of_find?_eq_some (by simpa [findNode] using hf), hc⟩
        have hx' : x ∈ (n.connections.foldl (traverse nodes f)
            ⟨nid :: s.visited, s.path ++ [nid]⟩).path := by
          simpa [traverse, hv, hf] using hx
        rcases foldl_mem_src nodes f ih n.connections _ x hmem hx' with h1 | h1
        · rcases List.mem_append.mp h1 with h2 | h2
          · exact Or.inl h2
          · exact Or.inr (Or.inl (by simpa using h2))
        · exact Or.inr (Or.inr h1)

/-- Helper lemma: folding the traversal only grows the visited set,
provided one traversal step only grows it. -/
theorem foldl_visited_mono (nodes : List WorkflowNode) (fuel : Nat)
    (h : ∀ s nid, s.visited ⊆ (traverse nodes fuel s nid).visited) :
    ∀ (l : List String) (s : TravSt), s.visited ⊆ (l.foldl (traverse nodes fuel) s).visited := by
  intro l
  induction l with
  | nil => intro s; simp
  | cons c cs ih =>
    intro s
    exact (h s c).trans (by simpa [List.foldl_cons] using ih (traverse nodes fuel s c))

/-- Helper lemma: one traversal step only grows the visited set. -/
theorem traverse_visited_mono (nodes : List WorkflowNode) :
    ∀ (fuel : Nat) (s : TravSt) (nid : String),
      s.visited ⊆ (traverse nodes fuel s nid).visited := by
  intro fuel
  induction fuel with
  | zero => intro s nid; simp [traverse]
  | succ f ih =>
    intro s nid
    by_cases hv : nid ∈ s.visited
    · simp [traverse, hv]
    · cases hf : findNode nodes nid with
      | none =>
        simp only [traverse, if_neg hv, hf]
        exact fun x hx => List.mem_cons_of_mem _ hx
      | some n =>
        simp only [traverse, if_neg hv, hf]
        intro x hx
        exact foldl_visited_mono nodes f ih n.connections
          ⟨nid :: s.visited, s.path ++ [nid]⟩ (List.mem_cons_of_mem nid hx)

/-- Helper lemma: the number of universe ids not yet visited never grows
along a traversal step. -/
theorem traverse_measure_mono (nodes : List WorkflowNode) (U : Finset String)
    (fuel : Nat) (s : TravSt) (nid : String) :
    (U \ (traverse nodes fuel s nid).visited.toFinset).card
      ≤ (U \ s.visited.toFinset).card := by
  apply Finset.card_le_card
  apply Finset.sdiff_subset_sdiff (le_refl U)
  intro x hx
  rw [List.mem_toFinset] at hx ⊢
  exact traverse_visited_mono nodes fuel s nid hx

/-- Helper lemma: the traversal result does not depend on the fuel, as long
as both fuels exceed the number of unvisited universe ids, for any finite
universe containing the current id and closed under successors.  This
makes the fuel in `buildExecutionPath` semantically irrelevant: it computes
the total depth-first walk of the source. -/
theorem traverse_fuel_irrelevant (nodes : List WorkflowNode) (U : Finset String)
    (hU : ∀ n ∈ nodes, ∀ c ∈ n.connections, c ∈ U) :
    ∀ (f1 f2 : Nat) (s : TravSt) (nid : String), nid ∈ U →
      (U \ s.visited.toFinset).card + 1 ≤ f1 →
      (U \ s.visited.toFinset).card + 1 ≤ f2 →
      traverse nodes f1 s nid = traverse nodes f2 s nid := by
  intro f1
  induction f1 with
  | zero => intro f2 s nid _ h1 _; omega
  | succ f ih =>
    intro f2 s nid hnid h1 h2
    cases f2 with
    | zero => omega
    | succ g =>
      by_cases hv : nid ∈ s.visited
      · simp [traverse, hv]
      · have hmem : nid ∈ U \ s.visited.toFinset := by
          rw [Finset.mem_sdiff, List.mem_toFinset]
          exact ⟨hnid, hv⟩
        have hpos : 0 < (U \ s.visited.toFinset).card :=
          Finset.card_pos.mpr ⟨nid, hmem⟩
        have hcard : (U \ (nid :: s.visited).toFinset).card + 1
            = (U \ s.visited.toFinset).card := by
          have : U \ (nid :: s.visited).toFinset = (U \ s.visited.toFinset).erase nid := by
            ext x
            simp [Finset.mem_sdiff, Finset.mem_erase, List.mem_toFinset]
            tauto
          rw [this, Finset.card_erase_of_mem hmem]
          omega
        cases hf : findNode nodes nid with
        | none => simp [traverse, hv, hf]
        | some n =>
          simp only [traverse, if_neg hv, hf]
          have hconns : ∀ c ∈ n.connections, c ∈ U :=
            hU n (List.mem_of_find?_eq_some (by simpa [findNode] using hf))
          have hrec : ∀ (l : List String) (s1 : TravSt), (∀ c ∈ l, c ∈ U) →
              (U \ s1.visited.toFinset).card + 1 ≤ f →
              (U \ s1.visited.toFinset).card + 1 ≤ g →
              l.foldl (traverse nodes f) s1 = l.foldl (traverse nodes g) s1 := by
            intro l
            induction l with
            | nil => intro s1 _ _ _; rfl
            | cons c cs ihl =>
              intro s1 hc hb1 hb2
              have hstep : traverse nodes f s1 c = traverse nodes g s1 c :=
                ih g s1 c (hc c (List.mem_cons_self _ _)) hb1 hb2
              have hm := traverse_measure_mono nodes U g s1 c
              simp only [List.foldl_cons, hstep]
              exact ihl (traverse nodes g s1 c)
                (fun d hd => hc d (List.mem_cons_of_mem _ hd))
                (by omega) (by omega)
          exact hrec n.connections ⟨nid :: s.visited, s.path ++ [nid]⟩ hconns
            (by show (U \ (nid :: s.visited).toFinset).card + 1 ≤ f; omega)
            (by show (U \ (nid :: s.visited).toFinset).card + 1 ≤ g; omega)

/-- Helper lemma: the total number of successor occurrences equals
`connCount`. -/
theorem allConns_length (nodes : List WorkflowNode) :
    (allConns nodes).length = connCount nodes := by
  unfold allConns connCount
  rw [List.length_flatten, List.map_map]
  rfl

/-- Helper lemma: any fuel of at least `connCount nodes + 2` computes the
same path as `buildExecutionPath`; the chosen fuel bound is sufficient, so
the embedding computes the total depth-first walk of the source. -/
theorem buildExecutionPath_fuel_independent (nodes : List WorkflowNode)
    (start : String) (f : Nat) (hf : connCount nodes + 2 ≤ f) :
    (traverse nodes f ⟨[], []⟩ start).path = buildExecutionPath nodes start := by
  have hU : ∀ n ∈ nodes, ∀ c ∈ n.connections, c ∈ insert start (allConns nodes).toFinset := by
    intro n hn c hc
    apply Finset.mem_insert_of_mem
    rw [List.mem_toFinset]
    exact List.mem_flatten.mpr ⟨n.connections, List.mem_map_of_mem _ hn, hc⟩
  have hcard : (insert start (allConns nodes).toFinset \ ([] : List String).toFinset).card + 1
      ≤ connCount nodes + 2 := by
    have h1 : (insert start (allConns nodes).toFinset).card
        ≤ (allConns nodes).toFinset.card + 1 := Finset.card_insert_le _ _
    have h2 : (allConns nodes).toFinset.card ≤ (allConns nodes).length :=
      List.toFinset_card_le _
    have h3 := allConns_length nodes
    simp only [List.toFinset_nil, Finset.sdiff_empty]
    omega
  unfold buildExecutionPath
  rw [traverse_fuel_irrelevant nodes (insert start (allConns nodes).toFinset) hU
    f (connCount nodes + 2) ⟨[], []⟩ start (Finset.mem_insert_self _ _)
    (le_trans hcard hf) hcard]

/-- Helper lemma: a traversal step on an unvisited id appends that id
first, followed only by newly reached ids. -/
theorem traverse_fresh_head (nodes : List WorkflowNode) (fuel : Nat) (s : TravSt)
    (nid : String) (hv : nid ∉ s.visited) :
    ∃ t, (traverse nodes (fuel + 1) s nid).path = s.path ++ nid :: t := by
  cases hf : findNode nodes nid with
  | none => exact ⟨[], by simp [traverse, hv, hf]⟩
  | some n =>
    obtain ⟨t, ht⟩ := foldl_path_extend nodes fuel (traverse_path_extend nodes fuel)
      n.connections ⟨nid :: s.visited, s.path ++ [nid]⟩
    refine ⟨t, ?_⟩
    simp only [traverse, if_neg hv, hf]
    rw [ht]
    simp

/-- C1 counterexample: in the one-node list whose node `A` has the dangling
successor id `B`, the path-building function does append `B` to the
returned sequence, refuting "a successor id that has no matching node in
the node list is never appended". -/
theorem c1_dangling_appended_cex :
    (findNode danglingNodes "B").isNone = true
  ∧ "B" ∈ buildExecutionPath danglingNodes "A" := by
  decide

/-- C1 (amended): a successor id with no matching node IS appended to the
path (once), but its own successors are never explored — the traversal
step on an unvisited dangling id returns immediately after marking and
appending it — and computing the path does not raise (the function is
total); moreover every id on the path is the start id or a successor of
some node, so no other ids are invented. -/
theorem c1_dangling_not_explored :
    (∀ (nodes : List WorkflowNode) (fuel : Nat) (s : TravSt) (nid : String),
        findNode nodes nid = none → nid ∉ s.visited →
        traverse nodes (fuel + 1) s nid = ⟨nid :: s.visited, s.path ++ [nid]⟩)
  ∧ (∀ (nodes : List WorkflowNode) (start x : String),
        x ∈ buildExecutionPath nodes start → x = start ∨ fromConns nodes x) := by
  constructor
  · intro nodes fuel s nid hf hv
    simp [traverse, hv, hf]
  · intro nodes start x hx
    rcases traverse_mem_src nodes (connCount nodes + 2) ⟨[], []⟩ start x
        (by simpa [buildExecutionPath] using hx) with h1 | h1 | h1
    · simp at h1
    · exact Or.inl h1
    · exact Or.inr h1

/-- C1 witness: the amended dangling-successor behavior at a concrete
input — traversing the dangling id `B` appends it and explores nothing. -/
theorem c1_dangling_witness :
    traverse danglingNodes 3 ⟨["A"], ["A"]⟩ "B" = ⟨["B", "A"], ["A", "B"]⟩ :=
  c1_dangling_not_explored.1 danglingNodes 2 ⟨["A"], ["A"]⟩ "B" rfl (by decide)

/-- C4: for every node list and start id the path-building function
terminates with a duplicate-free sequence (each node id occurs at most
once), and on the cyclic graph `A → B → A` started at `A` it returns
exactly `[A, B]`. -/
theorem c4_visit_at_most_once :
    (∀ (nodes : List WorkflowNode) (start : String), (buildExecutionPath nodes start).Nodup)
  ∧ buildExecutionPath cycNodes "A" = ["A", "B"] := by
  constructor
  · intro nodes start
    have h := traverse_good nodes (connCount nodes + 2) ⟨[], []⟩ start
      ⟨List.nodup_nil, by simp⟩
    exact h.1
  · decide

/-- C5 counterexample: in the node list where `X → [B, N]` and
`N → [S1, B]`, node `N` has successor list `[S1, B]` yet `B` precedes `S1`
in the returned path `[X, B, N, S1]` (because `B` was already visited via
`X` before `N` was explored), refuting the unconditional claim that a
node's first successor and its subtree precede its second successor. -/
theorem c5_preorder_cex :
    (findNode preorderNodes "N").map (fun n => n.connections) = some ["S1", "B"]
  ∧ buildExecutionPath preorderNodes "X" = ["X", "B", "N", "S1"]
  ∧ (buildExecutionPath preorderNodes "X").indexOf "B"
      < (buildExecutionPath preorderNodes "X").indexOf "S1" := by
  decide

/-- C5 (amended): the returned path is a depth-first pre-order in the
following sense: the start node id is always the first element of the path;
a freshly visited node with successor list `[c1, c2]` is appended first,
then `c1` is explored to completion before `c2` is looked at (successors in
list order); if `c1` is not yet visited it is appended immediately after
the node, followed by exactly the ids first reached through its subtree;
and if `c2` is still unvisited once `c1`'s exploration finished, `c2` is
appended after that entire region — so the first successor's subtree
precedes the second successor whenever the second successor was not
already reached earlier by another route. -/
theorem c5_preorder :
    (∀ (nodes : List WorkflowNode) (start : String),
        ∃ t, buildExecutionPath nodes start = start :: t)
  ∧ (∀ (nodes : List WorkflowNode) (fuel : Nat) (s : TravSt) (nid : String)
        (n : WorkflowNode) (c1 c2 : String),
        nid ∉ s.visited → findNode nodes nid = some n → n.connections = [c1, c2] →
        traverse nodes (fuel + 2) s nid
            = traverse nodes (fuel + 1)
                (traverse nodes (fuel + 1) ⟨nid :: s.visited, s.path ++ [nid]⟩ c1) c2
        ∧ (c1 ∉ nid :: s.visited →
            ∃ t1, (traverse nodes (fuel + 1) ⟨nid :: s.visited, s.path ++ [nid]⟩ c1).path
              = (s.path ++ [nid]) ++ c1 :: t1)
        ∧ (c2 ∉ (traverse nodes (fuel + 1) ⟨nid :: s.visited, s.path ++ [nid]⟩ c1).visited →
            ∃ t2, (traverse nodes (fuel + 2) s nid).path
              = (traverse nodes (fuel + 1)
                  ⟨nid :: s.visited, s.path ++ [nid]⟩ c1).path ++ c2 :: t2)) := by
  constructor
  · intro nodes start
    obtain ⟨t, ht⟩ := traverse_fresh_head nodes (connCount nodes + 1) ⟨[], []⟩ start (by simp)
    exact ⟨t, by simpa [buildExecutionPath] using ht⟩
  · intro nodes fuel s nid n c1 c2 hv hf hc
    have heq : traverse nodes (fuel + 2) s nid
        = traverse nodes (fuel + 1)
            (traverse nodes (fuel + 1) ⟨nid :: s.visited, s.path ++ [nid]⟩ c1) c2 := by
      rw [show fuel + 2 = (fuel + 1) + 1 from rfl]
      simp [traverse, hv, hf, hc]
    refine ⟨heq, ?_, ?_⟩
    · intro hc1
      exact traverse_fresh_head nodes fuel ⟨nid :: s.visited, s.path ++ [nid]⟩ c1 hc1
    · intro hc2
      obtain ⟨t2, ht2⟩ := traverse_fresh_head nodes fuel
        (traverse nodes (fuel + 1) ⟨nid :: s.visited, s.path ++ [nid]⟩ c1) c2 hc2
      exact ⟨t2, by rw [heq]; exact ht2⟩

/-- C5 witness: the amended pre-order behavior at a concrete input — the
trigger of the sibling fixture has successors `[a1, a2]`, and its traversal
first explores `a1` and only then `a2`. -/
theorem c5_preorder_witness :
    traverse siblingWorkflow.nodes 3 ⟨[], []⟩ "t"
      = traverse siblingWorkflow.nodes 2
          (traverse siblingWorkflow.nodes 2 ⟨["t"], ["t"]⟩ "a1") "a2" :=
  (c5_preorder.2 siblingWorkflow.nodes 1 ⟨[], []⟩ "t"
    (mkNode "t" .trigger [] ["a1", "a2"]) "a1" "a2" (by decide) rfl rfl).1

/-- C2: condition dispatch returns false both when the configured
expression's evaluation raises and when it yields a falsy value; the
execution loop reached at such a condition node stops there, dispatching no
later path entry and leaving the payload unchanged; and in the concrete
workflow Trigger → Condition → Output whose condition evaluation fails, the
run completes without error, the output node is never dispatched, and the
evaluation failure does not surface as an execution failure. -/
theorem c2_condition_halts :
    (∀ (caps : Caps) (node : WorkflowNode) (d : PValue) (e : String),
        caps.evalScript (cfgGetD node.config "condition" (.vStr "True")) d = .error e →
        executeConditionNode caps node d = false)
  ∧ (∀ (caps : Caps) (node : WorkflowNode) (d : PValue) (v : PValue),
        caps.evalScript (cfgGetD node.config "condition" (.vStr "True")) d = .ok v →
        pyTruthy v = false →
        executeConditionNode caps node d = false)
  ∧ (∀ (caps : Caps) (nodes : List WorkflowNode) (ch : Option String) (cid : String)
        (rest : List String) (s : LoopState) (node : WorkflowNode),
        findNode nodes cid = some node → node.type = NodeType.condition →
        executeConditionNode caps node s.data = false →
        runPath caps nodes ch (cid :: rest) s = RunResult.ok ⟨s.data, s.log ++ [cid]⟩)
  ∧ ((executeWorkflow noCaps condWorkflow (.vObj []) none "e2" 0 1).result = .ok "e2"
      ∧ (executeWorkflow noCaps condWorkflow (.vObj []) none "e2" 0 1).record.status
          = "completed"
      ∧ (executeWorkflow noCaps condWorkflow (.vObj []) none "e2" 0 1).log = ["t", "c"]
      ∧ "o" ∉ (executeWorkflow noCaps condWorkflow (.vObj []) none "e2" 0 1).log) := by
  refine ⟨?_, ?_, ?_, rfl, rfl, rfl, by decide⟩
  · intro caps node d e h
    simp [executeConditionNode, h]
  · intro caps node d v h ht
    simp [executeConditionNode, h, ht]
  · intro caps nodes ch cid rest s node hf htype hcond
    simp [runPath, hf, nodeStep, htype, hcond]

/-- C2 witness: the halting loop behavior at a concrete input — a false
condition node stops the walk, so the trailing output id is untouched. -/
theorem c2_condition_halts_witness :
    runPath noCaps condWorkflow.nodes none ["c", "o"] ⟨.vObj [], ["t"]⟩
      = RunResult.ok ⟨.vObj [], ["t", "c"]⟩ :=
  c2_condition_halts.2.2.1 noCaps condWorkflow.nodes none "c" ["o"] ⟨.vObj [], ["t"]⟩
    (mkNode "c" .condition [("condition", .vStr "False")] ["o"]) rfl rfl rfl

/-- C3: executing a workflow with zero trigger nodes raises the
configuration error "No trigger node found in workflow", which propagates
to the caller; the registry record for the run — the running record
registered before the trigger check, with its workflow id and start
timestamp — is finalized with status `error` and that non-empty message. -/
theorem c3_no_trigger_errors (caps : Caps) (w : Workflow) (d : PValue)
    (ch : Option String) (eid : String) (n1 n2 : Nat)
    (h : ∀ node ∈ w.nodes, node.type ≠ NodeType.trigger) :
    (executeWorkflow caps w d ch eid n1 n2).result
        = .error "No trigger node found in workflow"
  ∧ (executeWorkflow caps w d ch eid n1 n2).record
      = { runningRecord w ch n1 with
          status := "error"
          error := some "No trigger node found in workflow" }
  ∧ (executeWorkflow caps w d ch eid n1 n2).record.status = "error"
  ∧ (executeWorkflow caps w d ch eid n1 n2).record.error ≠ some ""
  ∧ (executeWorkflow caps w d ch eid n1 n2).record.error ≠ none := by
  have hnone : w.nodes.find? (fun n => n.type == NodeType.trigger) = none := by
    rw [List.find?_eq_none]
    intro x hx
    simp [h x hx]
  refine ⟨?_, ?_, ?_, ?_, ?_⟩ <;> simp [executeWorkflow, hnone, runningRecord]

/-- C3 witness: the no-trigger failure at a concrete input. -/
theorem c3_no_trigger_errors_witness :
    (executeWorkflow noCaps noTriggerWorkflow (.vObj []) none "e3" 0 1).result
        = .error "No trigger node found in workflow"
  ∧ (executeWorkflow noCaps noTriggerWorkflow (.vObj []) none "e3" 0 1).record
      = { runningRecord noTriggerWorkflow none 0 with
          status := "error"
          error := some "No trigger node found in workflow" }
  ∧ (executeWorkflow noCaps noTriggerWorkflow (.vObj []) none "e3" 0 1).record.status
      = "error"
  ∧ (executeWorkflow noCaps noTriggerWorkflow (.vObj []) none "e3" 0 1).record.error
      ≠ some ""
  ∧ (executeWorkflow noCaps noTriggerWorkflow (.vObj []) none "e3" 0 1).record.error
      ≠ none :=
  c3_no_trigger_errors noCaps noTriggerWorkflow (.vObj []) none "e3" 0 1 (by decide)

/-- C6: an `http_request` action whose HTTP call fails with a transport
error yields the payload `{error: message}` instead of raising; an action
node never halts the loop, which continues to the next path entry; and in
the concrete workflow Trigger → Action(http_request) → Output with a
failing HTTP capability, the run completes, the output node is still
dispatched, and the final payload carries the `error` key. -/
theorem c6_http_failure_is_data :
    (∀ (caps : Caps) (node : WorkflowNode) (d : PValue) (e : String),
        cfgGet node.config "action_type" = some (.vStr "http_request") →
        caps.http (cfgGetD node.config "method" (.vStr "GET"))
            (cfgGetD node.config "url" .vNull)
            (cfgGetD node.config "headers" (.vObj [])) d = .error e →
        executeActionNode caps node d = .vObj [("error", .vStr e)])
  ∧ (∀ (caps : Caps) (nodes : List WorkflowNode) (ch : Option String) (nid : String)
        (rest : List String) (s : LoopState) (node : WorkflowNode),
        findNode nodes nid = some node → node.type = NodeType.action →
        runPath caps nodes ch (nid :: rest) s
          = runPath caps nodes ch rest ⟨executeActionNode caps node s.data, s.log ++ [nid]⟩)
  ∧ ((executeWorkflow httpFailCaps httpWorkflow (.vObj []) none "e6" 0 1).result = .ok "e6"
      ∧ (executeWorkflow httpFailCaps httpWorkflow (.vObj []) none "e6" 0 1).log
          = ["t", "a", "o"]
      ∧ pvHasKey (executeWorkflow httpFailCaps httpWorkflow (.vObj []) none "e6" 0 1).finalData
          "error" = true) := by
  refine ⟨?_, ?_, rfl, rfl, rfl⟩
  · intro caps node d e h1 h2
    simp [executeActionNode, h1, h2]
  · intro caps nodes ch nid rest s node hf htype
    simp [runPath, hf, nodeStep, htype]

/-- C6 witness: the error-shaped payload at a concrete input. -/
theorem c6_http_failure_witness :
    executeActionNode httpFailCaps
        (mkNode "a" .action [("action_type", .vStr "http_request"),
                             ("url", .vStr "http://example.com")] ["o"]) (.vObj [])
      = .vObj [("error", .vStr "connection refused")] :=
  c6_http_failure_is_data.1 httpFailCaps
    (mkNode "a" .action [("action_type", .vStr "http_request"),
                         ("url", .vStr "http://example.com")] ["o"])
    (.vObj []) "connection refused" rfl rfl

/-- C7: one payload is threaded sequentially through the path — whenever a
found node's dispatch succeeds with continue, the loop on the remaining
path starts from exactly the payload that dispatch produced; every
non-condition node always signals continue; and in the concrete workflow
whose trigger has the two action successors `a1`, `a2`, the second sibling
receives the payload as mutated by the first (the final payload wraps the
string `mutated` produced by `a1`, not the original trigger data). -/
theorem c7_payload_threading :
    (∀ (caps : Caps) (nodes : List WorkflowNode) (ch : Option String) (nid : String)
        (rest : List String) (s : LoopState) (node : WorkflowNode) (d2 : PValue),
        findNode nodes nid = some node →
        nodeStep caps ch node s.data = .ok (d2, true) →
        runPath caps nodes ch (nid :: rest) s
          = runPath caps nodes ch rest ⟨d2, s.log ++ [nid]⟩)
  ∧ (∀ (caps : Caps) (ch : Option String) (node : WorkflowNode) (d d2 : PValue) (b : Bool),
        node.type ≠ NodeType.condition →
        nodeStep caps ch node d = .ok (d2, b) → b = true)
  ∧ (executeWorkflow siblingCaps siblingWorkflow (.vObj []) none "e7" 0 1).finalData
      = .vObj [("saw", .vStr "mutated")] := by
  refine ⟨?_, ?_, rfl⟩
  · intro caps nodes ch nid rest s node d2 hf hstep
    simp [runPath, hf, hstep]
  · intro caps ch node d d2 b htype hstep
    cases ht : node.type with
    | condition => exact absurd ht htype
    | trigger =>
      simp [nodeStep, ht] at hstep
      exact hstep.2
    | action =>
      simp [nodeStep, ht] at hstep
      exact hstep.2
    | ai_agent =>
      cases hh : executeAiAgentNode caps node d <;> simp [nodeStep, ht, hh] at hstep
      exact hstep.2
    | transform =>
      cases hh : executeTransformNode caps node d <;> simp [nodeStep, ht, hh] at hstep
      exact hstep.2
    | output =>
      cases hh : executeOutputNode caps node d ch <;> simp [nodeStep, ht, hh] at hstep
      exact hstep.2

/-- C7 witness: the threading equation at a concrete input — after the
first sibling's dispatch, the loop continues on the second sibling from the
mutated payload. -/
theorem c7_payload_threading_witness :
    runPath siblingCaps siblingWorkflow.nodes none ["a1", "a2"] ⟨.vObj [], ["t"]⟩
      = runPath siblingCaps siblingWorkflow.nodes none ["a2"] ⟨.vStr "mutated", ["t", "a1"]⟩ :=
  c7_payload_threading.1 siblingCaps siblingWorkflow.nodes none "a1" ["a2"]
    ⟨.vObj [], ["t"]⟩
    (mkNode "a1" .action [("action_type", .vStr "data_transform"),
                          ("transform_script", .vStr "s1")] [])
    (.vStr "mutated") rfl rfl

/-- C9: an action node whose config has `action_type` `data_transform` but
no `transform_script` key falls back to the default script `return data`;
because that text is a statement rather than an expression its evaluation
raises (encoded in the hypothesis on the evaluation capability), and the
dispatch therefore returns the `{error: message}` payload rather than the
unchanged payload. -/
theorem c9_default_script_errors (caps : Caps) (node : WorkflowNode) (d : PValue)
    (e : String)
    (h1 : cfgGet node.config "action_type" = some (.vStr "data_transform"))
    (h2 : cfgGet node.config "transform_script" = none)
    (h3 : caps.evalScript (.vStr "return data") d = .error e) :
    executeActionNode caps node d = .vObj [("error", .vStr e)]
  ∧ pvHasKey (executeActionNode caps node d) "error" = true := by
  have hs : executeActionNode caps node d = .vObj [("error", .vStr e)] := by
    simp [executeActionNode, h1, cfgGetD, h2, h3]
  exact ⟨hs, by simp [hs, pvHasKey]⟩

/-- C9 witness: the default-script failure at a concrete input, with the
evaluation capability rejecting the statement `return data` the way CPython
`eval` does. -/
theorem c9_default_script_witness :
    executeActionNode statementRejectingCaps defaultScriptNode (.vObj [])
        = .vObj [("error", .vStr "invalid syntax (<string>, line 1)")]
  ∧ pvHasKey (executeActionNode statementRejectingCaps defaultScriptNode (.vObj []))
      "error" = true :=
  c9_default_script_errors statementRejectingCaps defaultScriptNode (.vObj [])
    "invalid syntax (<string>, line 1)" rfl rfl rfl

/-- C10: a path entry with no matching node is skipped by the execution
loop — the loop on the remaining path proceeds from the same state, without
raising and without changing the payload — and a path consisting entirely
of absent ids runs to completion with the state untouched. -/
theorem c10_missing_node_skipped :
    (∀ (caps : Caps) (nodes : List WorkflowNode) (ch : Option String) (nid : String)
        (rest : List String) (s : LoopState),
        findNode nodes nid = none →
        runPath caps nodes ch (nid :: rest) s = runPath caps nodes ch rest s)
  ∧ (∀ (caps : Caps) (nodes : List WorkflowNode) (ch : Option String)
        (path : List String) (s : LoopState),
        (∀ nid ∈ path, findNode nodes nid = none) →
        runPath caps nodes ch path s = RunResult.ok s) := by
  constructor
  · intro caps nodes ch nid rest s hf
    simp [runPath, hf]
  · intro caps nodes ch path
    induction path with
    | nil => intro s _; rfl
    | cons nid rest ih =>
      intro s h
      rw [runPath, h nid (List.mem_cons_self _ _)]
      exact ih s (fun x hx => h x (List.mem_cons_of_mem _ hx))

/-- C10 witness: skipping absent ids at a concrete input. -/
theorem c10_missing_node_witness :
    runPath noCaps [] none ["x", "y"] ⟨.vObj [], []⟩ = RunResult.ok ⟨.vObj [], []⟩ :=
  c10_missing_node_skipped.2 noCaps [] none ["x", "y"] ⟨.vObj [], []⟩
    (fun _ _ => rfl)

/-- Helper lemma: writing the registry under one key does not change the
read of another key. -/
theorem regGet_set_ne (r : Registry) (k k2 : String) (v : ExecutionRecord)
    (h : k2 ≠ k) : regGet (regSet r k2 v) k = regGet r k := by
  simp only [regGet, regSet]
  rw [List.find?_cons_of_neg]
  simpa using h

/-- C8: once a registry record is terminal, no later operation mutates it —
every execution run writes only under its own freshly generated execution
id and a status query only reads — so after any sequence of operations
whose execution ids differ from the given one, the status query still
returns the identical record. -/
theorem c8_terminal_record_stable (r : Registry) (eid : String)
    (rec : ExecutionRecord) (ops : List RegOp)
    (hrec : getExecutionStatus r eid = some rec)
    (_hterm : rec.status = "completed" ∨ rec.status = "error")
    (hfresh : ∀ op ∈ ops, execId op ≠ some eid) :
    getExecutionStatus (ops.foldl regStep r) eid = some rec := by
  induction ops generalizing r with
  | nil => simpa using hrec
  | cons op ops ih =>
    rw [List.foldl_cons]
    refine ih (regStep r op) ?_ (fun o ho => hfresh o (List.mem_cons_of_mem _ ho))
    cases op with
    | statusQuery q => simpa [regStep] using hrec
    | exec caps w d ch eid2 n1 n2 =>
      have hne : eid2 ≠ eid := by
        intro hcontra
        exact hfresh _ (List.mem_cons_self _ _) (by simp [execId, hcontra])
      simpa [regStep, getExecutionStatus, regGet_set_ne _ _ _ _ hne] using hrec

/-- C8 witness: stability of a terminal record under a concrete operation
sequence containing a status query and an unrelated execution. -/
theorem c8_terminal_record_witness :
    getExecutionStatus
        ([RegOp.statusQuery "e1",
          RegOp.exec noCaps noTriggerWorkflow (.vObj []) none "e2" 5 6].foldl regStep
          [("e1", doneRecord)]) "e1" = some doneRecord := by
  refine c8_terminal_record_stable [("e1", doneRecord)] "e1" doneRecord _ rfl
    (Or.inl rfl) ?_
  intro op hop
  simp only [List.mem_cons, List.mem_singleton, List.not_mem_nil, or_false] at hop
  rcases hop with rfl | rfl
  · simp [execId]
  · simp [execId]

end WorkflowEngine
